import Mathlib

/-!
Shallow embedding of the virtual machine in `src/VM.cpp`.

The C++ program defines three components:
* `RAM`: a bounds-checked byte array of `RAM_SIZE` bytes;
* `Disk`: a bounds-checked, synchronously flushed byte array of `DISK_SIZE`
  bytes backed by a file;
* `CPU`: four 8-bit registers `regs[4]`, a 16-bit program counter `pc`, an
  8-bit stack pointer `sp` (initially `0xFF`), a zero flag `zf`, a `running`
  flag, and the fetch-decode-execute loop `execute`.

Machine integers are embedded as `Nat` with explicit truncation where the
C++ types wrap: `pc` is a `uint16_t`, so every update is taken `% 65536`;
`sp` is a `uint8_t`, so every update is taken `% 256`.  The byte stores
(`RAM.memory`, the disk file, and the register file) are embedded as total
functions `Nat → Nat`; that the stores hold bytes is recorded by the
well-formedness predicate `WF`.  The register file of the C++ program has
exactly 4 entries and is indexed without any range check, so indices `≥ 4`
are out of bounds in C++ (undefined behaviour); the embedding keeps the
register file total so that the bounds question itself can be stated, and
`stepRegAccesses` lists the indices the next instruction uses, exactly as
`CPU::execute` decodes them.  `std::cin` reads a (possibly negative) `int`,
so the input channel is a `List Int`, and `val & 0xFF` on a two's-complement
`int` is `Int.emod` by `256`.  The diagnostic stream (`std::cerr`) is the
`err` field; the `Disk` file persists inside the state, so separate
invocations of `execute` on the same state share it.
-/

namespace VM

/-- `constexpr size_t RAM_SIZE = 20 * 1024 * 1024;` (src/VM.cpp line 8). -/
def RAM_SIZE : Nat := 20 * 1024 * 1024

/-- `constexpr size_t DISK_SIZE = 100 * 1024 * 1024;` (src/VM.cpp line 9). -/
def DISK_SIZE : Nat := 100 * 1024 * 1024

/-- Pointwise update of a byte store: the effect of `memory[addr] = value`
(`RAM::write`, line 23) and of `Disk::write` (line 56). -/
def updFn (f : Nat → Nat) (addr v : Nat) : Nat → Nat :=
  fun a => if a = addr then v else f a

/-- The machine state: the members of `CPU` (lines 74-78), the byte stores
of `RAM` and `Disk`, and the I/O channels of the hosting console. -/
structure CPUState where
  regs : Nat → Nat
  pc : Nat
  sp : Nat
  zf : Bool
  running : Bool
  ram : Nat → Nat
  disk : Nat → Nat
  input : List Int
  output : List Nat
  err : List Nat

/-- `CPU::fetch` (line 82): read the byte at `pc`, post-incrementing the
16-bit `pc`. -/
def fetch (s : CPUState) : Nat × CPUState :=
  (s.ram s.pc, { s with pc := (s.pc + 1) % 65536 })

/-- `CPU::push` (line 87): `ram.write(sp--, val)` — write at the current
`sp`, then decrement the 8-bit `sp` (wrapping). -/
def push (s : CPUState) (v : Nat) : CPUState :=
  { s with ram := updFn s.ram s.sp v, sp := (s.sp + 255) % 256 }

/-- `CPU::pop` (line 91): `ram.read(++sp)` — increment the 8-bit `sp`
(wrapping), then read at the new `sp`. -/
def pop (s : CPUState) : Nat × CPUState :=
  (s.ram ((s.sp + 1) % 256), { s with sp := (s.sp + 1) % 256 })

/-- One arm of the `switch (opcode)` in `CPU::execute` (lines 102-207).
`s` is the state after the instruction byte has been fetched; `op` is the
high nibble and `operand` the low nibble of that byte. -/
def execInstr (op operand : Nat) (s : CPUState) : CPUState :=
  if op = 0x0 then s
  else if op = 0x1 then
    let f := fetch s
    let r := updFn f.2.regs operand f.1
    { f.2 with regs := r, zf := r operand == 0 }
  else if op = 0x2 then
    let f := fetch s
    { f.2 with ram := updFn f.2.ram f.1 (f.2.regs operand) }
  else if op = 0x3 then
    let f := fetch s
    let res := f.2.regs operand + f.2.regs f.1
    let r := updFn f.2.regs operand (res &&& 0xFF)
    { f.2 with regs := r, zf := r operand == 0 }
  else if op = 0x4 then
    let f := fetch s
    let res : Int := (f.2.regs operand : Int) - (f.2.regs f.1 : Int)
    let r := updFn f.2.regs operand (res % 256).toNat
    { f.2 with regs := r, zf := r operand == 0 }
  else if op = 0x5 then
    let f1 := fetch s
    let f2 := fetch f1.2
    { f2.2 with pc := (f2.1 <<< 8) ||| f1.1 }
  else if op = 0x6 then
    let f1 := fetch s
    let f2 := fetch f1.2
    if f2.2.zf then { f2.2 with pc := (f2.1 <<< 8) ||| f1.1 } else f2.2
  else if op = 0x7 then
    let f1 := fetch s
    let f2 := fetch f1.2
    let s1 := push f2.2 ((f2.2.pc >>> 8) &&& 0xFF)
    let s2 := push s1 (s1.pc &&& 0xFF)
    { s2 with pc := (f2.1 <<< 8) ||| f1.1 }
  else if op = 0x8 then
    let p1 := pop s
    let p2 := pop p1.2
    { p2.2 with pc := (p2.1 <<< 8) ||| p1.1 }
  else if op = 0x9 then
    let v : Int := s.input.headD 0
    let r := updFn s.regs operand (v % 256).toNat
    { s with input := s.input.tail, regs := r, zf := r operand == 0 }
  else if op = 0xA then { s with output := s.output ++ [s.regs operand] }
  else if op = 0xB then
    let f1 := fetch s
    let f2 := fetch f1.2
    let r := updFn f2.2.regs operand (f2.2.disk ((f2.1 <<< 8) ||| f1.1))
    { f2.2 with regs := r, zf := r operand == 0 }
  else if op = 0xC then
    let f1 := fetch s
    let f2 := fetch f1.2
    { f2.2 with disk := updFn f2.2.disk ((f2.1 <<< 8) ||| f1.1) (f2.2.regs operand) }
  else if op = 0xF then { s with running := false }
  else { s with running := false, err := s.err ++ [op] }

/-- One iteration of the `while (running)` loop body of `CPU::execute`
(lines 98-100): fetch the instruction byte, split it into opcode
(`instr >> 4`) and operand (`instr & 0x0F`), and dispatch. -/
def step (s : CPUState) : CPUState :=
  let f := fetch s
  execInstr (f.1 >>> 4) (f.1 &&& 0x0F) f.2

/-- The `while (running)` loop of `CPU::execute`, with explicit fuel (the
C++ loop need not terminate, e.g. on a memory full of NOPs). -/
def run : Nat → CPUState → CPUState
  | 0, s => s
  | n + 1, s => if s.running then run n (step s) else s

/-- `CPU::execute` (line 95): set `running := true`, then loop. -/
def execute (fuel : Nat) (s : CPUState) : CPUState :=
  run fuel { s with running := true }

/-- Register-file indices `CPU::execute` uses while executing the next
instruction, exactly as decoded: `regs[operand]` for LOAD, STORE, ADD, SUB,
IN, OUT, DISK_READ, DISK_WRITE, plus the unmasked second byte `regs[reg_m]`
for ADD and SUB.  The C++ register file is `uint8_t regs[4]`, so an access
is in bounds exactly when its index is `< 4`. -/
def stepRegAccesses (s : CPUState) : List Nat :=
  let instr := s.ram s.pc
  let op := instr >>> 4
  if op = 0x1 ∨ op = 0x2 ∨ op = 0x9 ∨ op = 0xA ∨ op = 0xB ∨ op = 0xC then
    [instr &&& 0x0F]
  else if op = 0x3 ∨ op = 0x4 then [instr &&& 0x0F, s.ram ((s.pc + 1) % 65536)]
  else []

/-- The decoded register numbers of the next instruction are at most 3:
the low-nibble operand for the eight register-using opcodes, and the
fetched `reg_m` byte for ADD/SUB. -/
def stepOperandsLe3 (s : CPUState) : Prop :=
  ((s.ram s.pc >>> 4 = 0x1 ∨ s.ram s.pc >>> 4 = 0x2 ∨ s.ram s.pc >>> 4 = 0x3 ∨
      s.ram s.pc >>> 4 = 0x4 ∨ s.ram s.pc >>> 4 = 0x9 ∨ s.ram s.pc >>> 4 = 0xA ∨
      s.ram s.pc >>> 4 = 0xB ∨ s.ram s.pc >>> 4 = 0xC) →
    s.ram s.pc &&& 0x0F ≤ 3) ∧
  ((s.ram s.pc >>> 4 = 0x3 ∨ s.ram s.pc >>> 4 = 0x4) →
    s.ram ((s.pc + 1) % 65536) ≤ 3)

/-- Register-file indices used along a fuelled run. -/
def runRegAccesses : Nat → CPUState → List Nat
  | 0, _ => []
  | n + 1, s =>
    if s.running then stepRegAccesses s ++ runRegAccesses n (step s) else []

/-- All decoded register numbers along a fuelled run are at most 3. -/
def runOperandsLe3 : Nat → CPUState → Prop
  | 0, _ => True
  | n + 1, s =>
    if s.running then stepOperandsLe3 s ∧ runOperandsLe3 n (step s) else True

/-- RAM addresses `CPU::execute` passes to `RAM::read` / `RAM::write`
while executing the next instruction: the instruction fetch at `pc`, the
extra operand fetches, the STORE target, and the stack accesses performed
by `push` / `pop`. -/
def stepRamAddrs (s : CPUState) : List Nat :=
  let instr := s.ram s.pc
  let op := instr >>> 4
  s.pc ::
    (if op = 0x1 ∨ op = 0x3 ∨ op = 0x4 then [(s.pc + 1) % 65536]
    else if op = 0x2 then [(s.pc + 1) % 65536, s.ram ((s.pc + 1) % 65536)]
    else if op = 0x5 ∨ op = 0x6 ∨ op = 0xB ∨ op = 0xC then
      [(s.pc + 1) % 65536, (s.pc + 2) % 65536]
    else if op = 0x7 then
      [(s.pc + 1) % 65536, (s.pc + 2) % 65536, s.sp, (s.sp + 255) % 256]
    else if op = 0x8 then [(s.sp + 1) % 256, (s.sp + 2) % 256]
    else [])

/-- Disk addresses `CPU::execute` passes to `Disk::read` / `Disk::write`
while executing the next instruction. -/
def stepDiskAddrs (s : CPUState) : List Nat :=
  let instr := s.ram s.pc
  let op := instr >>> 4
  if op = 0xB ∨ op = 0xC then
    [(s.ram ((s.pc + 2) % 65536) <<< 8) ||| s.ram ((s.pc + 1) % 65536)]
  else []

/-- RAM addresses touched along a fuelled run. -/
def runRamAddrs : Nat → CPUState → List Nat
  | 0, _ => []
  | n + 1, s =>
    if s.running then stepRamAddrs s ++ runRamAddrs n (step s) else []

/-- Disk addresses touched along a fuelled run. -/
def runDiskAddrs : Nat → CPUState → List Nat
  | 0, _ => []
  | n + 1, s =>
    if s.running then stepDiskAddrs s ++ runDiskAddrs n (step s) else []

/-- Well-formedness: the embedded `Nat` fields lie in the ranges of their
C++ types (`pc : uint16_t`, `sp : uint8_t`) and the stores hold bytes. -/
def WF (s : CPUState) : Prop :=
  s.pc < 65536 ∧ s.sp < 256 ∧ (∀ a, s.ram a < 256) ∧
    (∀ a, s.disk a < 256) ∧ (∀ i, s.regs i < 256)

/-- A byte store holding the listed bytes from address 0 up, zero beyond:
how a host program would pre-load a program into the zero-initialized RAM. -/
def listFun (l : List Nat) : Nat → Nat :=
  fun a => l.getD a 0

/-- A machine as `main` constructs it (lines 212-215): zero-initialized RAM
and disk, zeroed registers, `pc = 0`, `sp = 0xFF`, flags clear, with the
given program bytes pre-loaded at address 0 and the given console input. -/
def boot (prog : List Nat) (inp : List Int) : CPUState :=
  { regs := listFun [], pc := 0, sp := 0xFF, zf := false, running := false,
    ram := listFun prog, disk := listFun [], input := inp, output := [],
    err := [] }

/-- Concrete machine about to execute `ADD R0, R1` with `R0 = R1 = 200`. -/
def cwAdd : CPUState := { boot [0x30, 0x01] [] with regs := listFun [200, 200] }

/-- Concrete machine about to execute `SUB R1, R0` with `R0 = 7`, `R1 = 5`. -/
def cwSub : CPUState := { boot [0x41, 0x00] [] with regs := listFun [7, 5] }

/-- Concrete machine about to decode the unassigned opcode `0xD`. -/
def cwBad : CPUState := { boot [0xD3] [] with regs := listFun [9], zf := true }

/-- Concrete machine about to execute `LOAD R0, 0`. -/
def cwLoadZ : CPUState := boot [0x10, 0x00] []

/-- Concrete machine about to execute `STORE R0, 5` with `zf` set. -/
def cwStore : CPUState := { boot [0x20, 0x05] [] with zf := true }

/-- Concrete machine about to execute `JZ 0x1234` with `zf` set. -/
def cwJzT : CPUState := { boot [0x60, 0x34, 0x12] [] with zf := true }

/-- Concrete machine about to execute `JZ 0x1234` with `zf` clear. -/
def cwJzF : CPUState := boot [0x60, 0x34, 0x12] []

/-- Concrete machine about to execute `CALL 0x0005` with a `RET` byte at
address 5. -/
def cwCall : CPUState := boot [0x70, 0x05, 0x00, 0x00, 0x00, 0x80] []

/-- Concrete machine about to execute `DISK_WRITE R0, 0x0007`, `R0 = 42`. -/
def cwDiskW : CPUState := { boot [0xC0, 0x07, 0x00] [] with regs := listFun [42] }

/-- Concrete machine about to execute `DISK_READ R1, 0x0007`, its disk
being what `cwDiskW`'s DISK_WRITE left behind (a later run on the same
persistent store). -/
def cwDiskR : CPUState := { boot [0xB1, 0x07, 0x00] [] with disk := (step cwDiskW).disk }

/-- The spec's scenario program `0x10 0x05 0x1F 0x00`, loaded at address 0
of an otherwise zero memory, entered at `pc = 0`. -/
def c8b : CPUState := boot [0x10, 0x05, 0x1F, 0x00] []

/-- The spec's scenario claim for `c8b`: some amount of fuel makes
`execute` halt (return) with `R0 = 5` and the zero flag clear. -/
def c8Claim : Prop :=
  ∃ n, (execute n c8b).running = false ∧ (execute n c8b).regs 0 = 5 ∧
    (execute n c8b).zf = false

/-- Concrete machine running `LOAD R0, 7; HALT`. -/
def cwSafe : CPUState := { boot [0x10, 0x07, 0xF0] [] with running := true }

/-- Bitmask facts about the decoders used by `CPU::execute`:
`instr & 0x0F` is remainder mod 16. -/
theorem and15_eq_mod (x : Nat) : x &&& 0x0F = x % 16 := by
  have h := Nat.and_pow_two_sub_one_eq_mod x 4
  norm_num at h
  exact h

/-- `res & 0xFF` is remainder mod 256. -/
theorem and255_eq_mod (x : Nat) : x &&& 0xFF = x % 256 := by
  have h := Nat.and_pow_two_sub_one_eq_mod x 8
  norm_num at h
  exact h

/-- `instr >> 4` is division by 16. -/
theorem shr4_eq_div (x : Nat) : x >>> 4 = x / 16 := by
  have h := Nat.shiftRight_eq_div_pow x 4
  norm_num at h
  exact h

/-- `pc >> 8` is division by 256. -/
theorem shr8_eq_div (x : Nat) : x >>> 8 = x / 256 := by
  have h := Nat.shiftRight_eq_div_pow x 8
  norm_num at h
  exact h

/-- Little-endian address assembly `(high << 8) | low` is `high * 256 + low`
whenever `low` is a byte. -/
theorem shl8_lor_eq (h l : Nat) (hl : l < 256) : (h <<< 8) ||| l = h * 256 + l := by
  have h2 := Nat.mul_add_lt_is_or (show l < 2 ^ 8 by simpa using hl) h
  rw [Nat.shiftLeft_eq]
  norm_num at h2 ⊢
  rw [Nat.mul_comm 256 h] at h2
  exact h2.symm

/-- Dispatch form of `step`, with the nibble extractions written as
division and remainder. -/
theorem step_eq (s : CPUState) :
    step s = execInstr (s.ram s.pc / 16) (s.ram s.pc % 16)
      { s with pc := (s.pc + 1) % 65536 } := by
  rw [show step s = execInstr (s.ram s.pc >>> 4) (s.ram s.pc &&& 0x0F)
        { s with pc := (s.pc + 1) % 65536 } from rfl,
      shr4_eq_div, and15_eq_mod]

/-- NOP (case 0x0, line 103): no effect. -/
theorem execInstr_nop (od : Nat) (s : CPUState) : execInstr 0x0 od s = s := rfl

/-- LOAD (case 0x1, line 106): fetch the immediate, write it to
`regs[operand]`, set the zero flag from the written register. -/
theorem execInstr_load (od : Nat) (s : CPUState) :
    execInstr 0x1 od s =
      { s with pc := (s.pc + 1) % 65536,
               regs := updFn s.regs od (s.ram s.pc),
               zf := updFn s.regs od (s.ram s.pc) od == 0 } := rfl

/-- STORE (case 0x2, line 113): fetch the 8-bit address, write
`regs[operand]` there. -/
theorem execInstr_store (od : Nat) (s : CPUState) :
    execInstr 0x2 od s =
      { s with pc := (s.pc + 1) % 65536,
               ram := updFn s.ram (s.ram s.pc) (s.regs od) } := rfl

/-- ADD (case 0x3, line 119): fetch the register number `reg_m` (a full
unmasked byte), add in a 16-bit intermediate, truncate with `& 0xFF`. -/
theorem execInstr_add (od : Nat) (s : CPUState) :
    execInstr 0x3 od s =
      { s with pc := (s.pc + 1) % 65536,
               regs := updFn s.regs od ((s.regs od + s.regs (s.ram s.pc)) &&& 0xFF),
               zf := updFn s.regs od ((s.regs od + s.regs (s.ram s.pc)) &&& 0xFF) od
                  == 0 } := rfl

/-- SUB (case 0x4, line 127): fetch `reg_m`, subtract in a signed 16-bit
intermediate, truncate with `& 0xFF` (two's complement, i.e. mod 256). -/
theorem execInstr_sub (od : Nat) (s : CPUState) :
    execInstr 0x4 od s =
      { s with pc := (s.pc + 1) % 65536,
               regs := updFn s.regs od
                 ((((s.regs od : Int) - (s.regs (s.ram s.pc) : Int)) % 256).toNat),
               zf := updFn s.regs od
                 ((((s.regs od : Int) - (s.regs (s.ram s.pc) : Int)) % 256).toNat) od
                  == 0 } := rfl

/-- JMP (case 0x5, line 135): fetch low then high byte, jump. -/
theorem execInstr_jmp (od : Nat) (s : CPUState) :
    execInstr 0x5 od s =
      { s with pc := (s.ram ((s.pc + 1) % 65536) <<< 8) ||| s.ram s.pc } := rfl

/-- JZ (case 0x6, line 142): fetch low then high byte, jump iff `zf`. -/
theorem execInstr_jz (od : Nat) (s : CPUState) :
    execInstr 0x6 od s =
      if s.zf then
        { s with pc := (s.ram ((s.pc + 1) % 65536) <<< 8) ||| s.ram s.pc }
      else { s with pc := ((s.pc + 1) % 65536 + 1) % 65536 } := rfl

/-- CALL (case 0x7, line 150): fetch low then high byte, push the high
then the low byte of the post-fetch `pc`, jump. -/
theorem execInstr_call (od : Nat) (s : CPUState) :
    execInstr 0x7 od s =
      { s with
          pc := (s.ram ((s.pc + 1) % 65536) <<< 8) ||| s.ram s.pc,
          ram := updFn (updFn s.ram s.sp
              (((((s.pc + 1) % 65536 + 1) % 65536) >>> 8) &&& 0xFF))
            ((s.sp + 255) % 256) ((((s.pc + 1) % 65536 + 1) % 65536) &&& 0xFF),
          sp := ((s.sp + 255) % 256 + 255) % 256 } := rfl

/-- RET (case 0x8, line 160): pop low then high byte, reassemble `pc`. -/
theorem execInstr_ret (od : Nat) (s : CPUState) :
    execInstr 0x8 od s =
      { s with
          sp := ((s.sp + 1) % 256 + 1) % 256,
          pc := (s.ram (((s.sp + 1) % 256 + 1) % 256) <<< 8) |||
            s.ram ((s.sp + 1) % 256) } := rfl

/-- IN (case 0x9, line 167): read an `int` from the console, mask it to 8
bits, write it to `regs[operand]`, set the zero flag. -/
theorem execInstr_inp (od : Nat) (s : CPUState) :
    execInstr 0x9 od s =
      { s with input := s.input.tail,
               regs := updFn s.regs od ((s.input.headD 0 % 256).toNat),
               zf := updFn s.regs od ((s.input.headD 0 % 256).toNat) od == 0 } := rfl

/-- OUT (case 0xA, line 176): emit `regs[operand]`. -/
theorem execInstr_outp (od : Nat) (s : CPUState) :
    execInstr 0xA od s = { s with output := s.output ++ [s.regs od] } := rfl

/-- DISK_READ (case 0xB, line 181): fetch the little-endian address, read
the disk there into `regs[operand]`, set the zero flag. -/
theorem execInstr_diskRead (od : Nat) (s : CPUState) :
    execInstr 0xB od s =
      { s with
          pc := ((s.pc + 1) % 65536 + 1) % 65536,
          regs := updFn s.regs od
            (s.disk ((s.ram ((s.pc + 1) % 65536) <<< 8) ||| s.ram s.pc)),
          zf := updFn s.regs od
              (s.disk ((s.ram ((s.pc + 1) % 65536) <<< 8) ||| s.ram s.pc)) od
            == 0 } := rfl

/-- DISK_WRITE (case 0xC, line 190): fetch the little-endian address,
write `regs[operand]` to the disk there. -/
theorem execInstr_diskWrite (od : Nat) (s : CPUState) :
    execInstr 0xC od s =
      { s with
          pc := ((s.pc + 1) % 65536 + 1) % 65536,
          disk := updFn s.disk ((s.ram ((s.pc + 1) % 65536) <<< 8) ||| s.ram s.pc)
            (s.regs od) } := rfl

/-- HALT (case 0xF, line 198): lower the `running` flag. -/
theorem execInstr_halt (od : Nat) (s : CPUState) :
    execInstr 0xF od s = { s with running := false } := rfl

/-- The `default` arm (line 203): any opcode other than 0x0-0xC and 0xF
reports the opcode on `cerr` and lowers the `running` flag. -/
theorem execInstr_unknown (op od : Nat) (s : CPUState) (hlo : 13 ≤ op)
    (hhi : op ≠ 15) :
    execInstr op od s = { s with running := false, err := s.err ++ [op] } := by
  unfold execInstr
  repeat rw [if_neg (by omega)]

/-- A store pre-loaded with bytes holds bytes everywhere. -/
theorem listFun_lt (l : List Nat) (hl : ∀ x ∈ l, x < 256) (a : Nat) :
    listFun l a < 256 := by
  unfold listFun
  rw [List.getD_eq_getElem?_getD]
  rcases lt_or_le a l.length with h | h
  · rw [List.getElem?_eq_getElem h]
    exact hl _ (List.getElem_mem h)
  · rw [List.getElem?_eq_none h]
    norm_num

/-- C2: for register indices `n, m ≤ 3` holding 8-bit values `a` and `b`,
`ADD n,m` (opcode 3) sets register `n` to `(a + b) mod 256` and `SUB n,m`
(opcode 4) sets register `n` to `(a - b) mod 256`, wrapping on underflow
(both computed in a wider intermediate and truncated to 8 bits by
`& 0xFF`); in both cases the zero flag afterwards equals
`(register n == 0)`. -/
theorem add_sub_wrap (s : CPUState) (n m a b : Nat)
    (hn : s.ram s.pc % 16 = n) (hm : s.ram ((s.pc + 1) % 65536) = m)
    (hn3 : n ≤ 3) (hm3 : m ≤ 3)
    (ha : s.regs n = a) (hb : s.regs m = b) (ha8 : a < 256) (hb8 : b < 256) :
    (s.ram s.pc / 16 = 0x3 →
      (step s).regs n = (a + b) % 256 ∧
      (step s).zf = ((step s).regs n == 0)) ∧
    (s.ram s.pc / 16 = 0x4 →
      (step s).regs n = (((a : Int) - (b : Int)) % 256).toNat ∧
      (step s).zf = ((step s).regs n == 0)) := by
  constructor
  · intro h3
    rw [step_eq, h3, hn]
    simp [execInstr, fetch, updFn, and255_eq_mod, hm, ha, hb]
  · intro h4
    rw [step_eq, h4, hn]
    simp [execInstr, fetch, updFn, hm, ha, hb]

/-- A machine whose `running` flag is down is left untouched by the loop. -/
theorem run_halted (n : Nat) (s : CPUState) (h : s.running = false) :
    run n s = s := by
  cases n <;> simp [run, h]

/-- Every branch of the dispatch leaves the 8-bit stack pointer below 256:
it is either untouched, or wrapped `% 256` by `push` / `pop`. -/
theorem step_sp_lt (s : CPUState) (h : s.sp < 256) : (step s).sp < 256 := by
  rw [step_eq]
  generalize hgen : s.ram s.pc / 16 = k
  rcases Nat.lt_or_ge k 16 with hk | hk
  · interval_cases k
    · rw [execInstr_nop]; exact h
    · rw [execInstr_load]; exact h
    · rw [execInstr_store]; exact h
    · rw [execInstr_add]; exact h
    · rw [execInstr_sub]; exact h
    · rw [execInstr_jmp]; exact h
    · rw [execInstr_jz]; split <;> exact h
    · rw [execInstr_call]; simp; omega
    · rw [execInstr_ret]; simp; omega
    · rw [execInstr_inp]; exact h
    · rw [execInstr_outp]; exact h
    · rw [execInstr_diskRead]; exact h
    · rw [execInstr_diskWrite]; exact h
    · rw [execInstr_unknown 13 _ _ (by omega) (by omega)]; exact h
    · rw [execInstr_unknown 14 _ _ (by omega) (by omega)]; exact h
    · rw [execInstr_halt]; exact h
  · rw [execInstr_unknown _ _ _ (by omega) (by omega)]; exact h

/-- Witness for C2: `ADD R0, R1` with both registers 200 wraps to 144, and
`SUB R1, R0` with `R1 = 5`, `R0 = 7` wraps to 254. -/
theorem add_sub_wrap_witness :
    ((step cwAdd).regs 0 = 144 ∧ (step cwAdd).zf = ((step cwAdd).regs 0 == 0)) ∧
    ((step cwSub).regs 1 = 254 ∧ (step cwSub).zf = ((step cwSub).regs 1 == 0)) := by
  constructor
  · have h := (add_sub_wrap cwAdd 0 1 200 200 (by decide) (by decide) (by decide)
      (by decide) (by decide) (by decide) (by decide) (by decide)).1 (by decide)
    simpa using h
  · have h := (add_sub_wrap cwSub 1 0 5 7 (by decide) (by decide) (by decide)
      (by decide) (by decide) (by decide) (by decide) (by decide)).2 (by decide)
    simpa using h

/-- C3: an instruction byte whose high nibble is not one of the opcodes
0x0-0xC or 0xF makes the engine report the opcode value as a diagnostic
(on `cerr`, the `err` stream) and transition to Halted: the loop no longer
runs (so `execute` returns to its caller), and the four registers, the
zero flag, and the stack pointer are unchanged from before the instruction
was decoded. -/
theorem unknown_opcode_clean_halt (s : CPUState) (hbyte : s.ram s.pc < 256)
    (h1 : ¬ s.ram s.pc / 16 ≤ 0xC) (h2 : s.ram s.pc / 16 ≠ 0xF) :
    (step s).running = false ∧ (step s).regs = s.regs ∧ (step s).zf = s.zf ∧
    (step s).sp = s.sp ∧ (step s).err = s.err ++ [s.ram s.pc / 16] ∧
    ∀ n, run n (step s) = step s := by
  have hop : s.ram s.pc / 16 = 13 ∨ s.ram s.pc / 16 = 14 := by omega
  have hstep : (step s).running = false ∧ (step s).regs = s.regs ∧
      (step s).zf = s.zf ∧ (step s).sp = s.sp ∧
      (step s).err = s.err ++ [s.ram s.pc / 16] := by
    rcases hop with h | h <;> rw [step_eq, h] <;> simp [execInstr]
  exact ⟨hstep.1, hstep.2.1, hstep.2.2.1, hstep.2.2.2.1, hstep.2.2.2.2,
    fun n => run_halted n _ hstep.1⟩

/-- Witness for C3 at the concrete instruction byte `0xD3`. -/
theorem unknown_opcode_clean_halt_witness :
    (step cwBad).running = false ∧ (step cwBad).regs = cwBad.regs ∧
    (step cwBad).zf = cwBad.zf ∧ (step cwBad).sp = cwBad.sp ∧
    (step cwBad).err = cwBad.err ++ [cwBad.ram cwBad.pc / 16] ∧
    ∀ n, run n (step cwBad) = step cwBad :=
  unknown_opcode_clean_halt cwBad (by decide) (by decide) (by decide)

/-- C4: after one executed instruction, the zero flag equals
`(written register == 0)` when the opcode is LOAD (0x1), ADD (0x3),
SUB (0x4), IN (0x9) or DISK_READ (0xB) — the written register being the
low-nibble operand — and the zero flag is unchanged when the opcode is
NOP (0x0), STORE (0x2), JMP (0x5), JZ (0x6), CALL (0x7), RET (0x8),
OUT (0xA), DISK_WRITE (0xC) or HALT (0xF). -/
theorem zf_discipline (s : CPUState) :
    ((s.ram s.pc / 16 = 0x1 ∨ s.ram s.pc / 16 = 0x3 ∨ s.ram s.pc / 16 = 0x4 ∨
        s.ram s.pc / 16 = 0x9 ∨ s.ram s.pc / 16 = 0xB) →
      (step s).zf = ((step s).regs (s.ram s.pc % 16) == 0)) ∧
    ((s.ram s.pc / 16 = 0x0 ∨ s.ram s.pc / 16 = 0x2 ∨ s.ram s.pc / 16 = 0x5 ∨
        s.ram s.pc / 16 = 0x6 ∨ s.ram s.pc / 16 = 0x7 ∨ s.ram s.pc / 16 = 0x8 ∨
        s.ram s.pc / 16 = 0xA ∨ s.ram s.pc / 16 = 0xC ∨ s.ram s.pc / 16 = 0xF) →
      (step s).zf = s.zf) := by
  constructor
  · intro h
    rcases h with h | h | h | h | h <;> rw [step_eq, h] <;>
      simp [execInstr, fetch, updFn]
  · intro h
    rcases h with h | h | h | h | h | h | h | h | h <;> rw [step_eq, h] <;>
      simp [execInstr, fetch, push, pop] <;> split <;> simp

/-- Witness for C4: `LOAD R0, 0` sets the flag from the written register,
and `STORE R0, 5` leaves the flag untouched. -/
theorem zf_discipline_witness :
    (step cwLoadZ).zf = ((step cwLoadZ).regs (cwLoadZ.ram cwLoadZ.pc % 16) == 0) ∧
    (step cwStore).zf = cwStore.zf :=
  ⟨(zf_discipline cwLoadZ).1 (by decide), (zf_discipline cwStore).2 (by decide)⟩

/-- C5: `JZ addr16` (opcode 0x6) with the little-endian target
`addr16 = (high << 8) | low` (low byte fetched first): if the zero flag is
set the program counter becomes `addr16`; if it is clear the program
counter ends at the byte just after the two address bytes; registers, the
zero flag, and the stack pointer are unchanged in either case. -/
theorem jz_semantics (s : CPUState) (hop : s.ram s.pc / 16 = 0x6) :
    (s.zf = true →
      (step s).pc = (s.ram ((s.pc + 2) % 65536) <<< 8) ||| s.ram ((s.pc + 1) % 65536)) ∧
    (s.zf = false → (step s).pc = (s.pc + 3) % 65536) ∧
    (step s).regs = s.regs ∧ (step s).zf = s.zf ∧ (step s).sp = s.sp := by
  rw [step_eq, hop]
  cases hzf : s.zf <;> simp [execInstr, fetch, hzf, Nat.mod_add_mod]

/-- Witness for C5: `JZ 0x1234` jumps to 0x1234 when the flag is set and
falls through to 3 when it is clear. -/
theorem jz_semantics_witness :
    (step cwJzT).pc =
      (cwJzT.ram ((cwJzT.pc + 2) % 65536) <<< 8) ||| cwJzT.ram ((cwJzT.pc + 1) % 65536) ∧
    (step cwJzF).pc = (cwJzF.pc + 3) % 65536 :=
  ⟨(jz_semantics cwJzT (by decide)).1 (by decide),
   (jz_semantics cwJzF (by decide)).2.1 (by decide)⟩

/-- C6: the stack pointer is 8 bits wide: `push` writes at the current
stack pointer (an address below 256) and wraps the decremented pointer
`% 256`, `pop` wraps the incremented pointer `% 256` and reads there (an
address below 256), so push/pop only touch the lowest 256 RAM addresses;
a push at `sp = 0x00` leaves `sp = 0xFF`, a pop at `sp = 0xFF` leaves
`sp = 0x00`, a push at the initial `sp = 0xFF` leaves `sp = 0xFE` and a
matching pop returns it to `0xFF`; one engine step always leaves the stack
pointer below 256. -/
theorem sp_eight_bit (s : CPUState) (v : Nat) (hsp : s.sp < 256) :
    ((push s v).sp = (s.sp + 255) % 256 ∧ (push s v).sp < 256 ∧
      (push s v).ram = updFn s.ram s.sp v ∧ s.sp < 256) ∧
    ((pop s).2.sp = (s.sp + 1) % 256 ∧ (pop s).2.sp < 256 ∧
      (pop s).1 = s.ram ((s.sp + 1) % 256) ∧ (s.sp + 1) % 256 < 256) ∧
    (s.sp = 0x00 → (push s v).sp = 0xFF) ∧
    (s.sp = 0xFF → (pop s).2.sp = 0x00) ∧
    (s.sp = 0xFF → (push s v).sp = 0xFE ∧ (pop (push s v)).2.sp = 0xFF) ∧
    (step s).sp < 256 := by
  refine ⟨⟨rfl, by simp [push]; omega, rfl, hsp⟩,
    ⟨rfl, by simp [pop]; omega, rfl, by omega⟩, ?_, ?_, ?_, step_sp_lt s hsp⟩
  · intro h; simp [push, h]
  · intro h; simp [pop, h]
  · intro h; simp [push, pop, h]

/-- Reading a byte store at the just-written address yields the value. -/
theorem updFn_self (f : Nat → Nat) (a v : Nat) : updFn f a v a = v := by
  simp [updFn]

/-- Reading a byte store elsewhere is unaffected by a write. -/
theorem updFn_other (f : Nat → Nat) (a v b : Nat) (h : b ≠ a) :
    updFn f a v b = f b := by
  simp [updFn, h]

/-- C1: for every state with an 8-bit stack pointer whose next instruction
is `CALL addr16` (opcode 0x7), if the byte at the call target decodes to
`RET` (opcode 0x8) after the CALL executes, then running the CALL and then
that RET restores the program counter to the address just after the CALL's
three bytes and restores the stack pointer to its pre-CALL value (CALL
pushes the high then the low byte of the post-fetch `pc`; RET pops low
then high and reassembles `pc = (high << 8) | low`). -/
theorem call_ret_roundtrip (s : CPUState) (hsp : s.sp < 256)
    (hcall : s.ram s.pc / 16 = 0x7)
    (hret : (step s).ram (step s).pc / 16 = 0x8) :
    (step (step s)).pc = (s.pc + 3) % 65536 ∧ (step (step s)).sp = s.sp := by
  rw [step_eq s, hcall, execInstr_call] at hret ⊢
  dsimp only at hret ⊢
  rw [step_eq, hret, execInstr_ret]
  dsimp only
  refine ⟨?_, by omega⟩
  rw [show ((((s.sp + 255) % 256 + 255) % 256 + 1) % 256 + 1) % 256 = s.sp by omega,
    show (((s.sp + 255) % 256 + 255) % 256 + 1) % 256 = (s.sp + 255) % 256 by omega,
    updFn_self, updFn_other _ _ _ _ (by omega), updFn_self]
  simp only [and255_eq_mod, shr8_eq_div]
  rw [shl8_lor_eq _ _ (by omega)]
  omega

/-- Witness for C1: `CALL 0x0005` at address 0 with a `RET` byte at
address 5 returns to address 3 with the stack pointer back at `0xFF`. -/
theorem call_ret_roundtrip_witness :
    (step (step cwCall)).pc = (cwCall.pc + 3) % 65536 ∧
    (step (step cwCall)).sp = cwCall.sp :=
  call_ret_roundtrip cwCall (by decide) (by decide) (by decide)

/-- Witness for C6 at a machine with the initial stack pointer `0xFF`. -/
theorem sp_eight_bit_witness :
    ((push cwLoadZ 7).sp = (cwLoadZ.sp + 255) % 256 ∧ (push cwLoadZ 7).sp < 256 ∧
      (push cwLoadZ 7).ram = updFn cwLoadZ.ram cwLoadZ.sp 7 ∧ cwLoadZ.sp < 256) ∧
    ((pop cwLoadZ).2.sp = (cwLoadZ.sp + 1) % 256 ∧ (pop cwLoadZ).2.sp < 256 ∧
      (pop cwLoadZ).1 = cwLoadZ.ram ((cwLoadZ.sp + 1) % 256) ∧
      (cwLoadZ.sp + 1) % 256 < 256) ∧
    (cwLoadZ.sp = 0x00 → (push cwLoadZ 7).sp = 0xFF) ∧
    (cwLoadZ.sp = 0xFF → (pop cwLoadZ).2.sp = 0x00) ∧
    (cwLoadZ.sp = 0xFF → (push cwLoadZ 7).sp = 0xFE ∧
      (pop (push cwLoadZ 7)).2.sp = 0xFF) ∧
    (step cwLoadZ).sp < 256 :=
  sp_eight_bit cwLoadZ 7 (by decide)

/-- C7: durability round-trip.  First part: if the next instruction of `s`
is `DISK_WRITE n, a` (opcode 0xC, little-endian address `a`), and `s'` is
any later state (possibly from a separate `execute` invocation) whose disk
still holds at `a` what the DISK_WRITE left there, and the next
instruction of `s'` is `DISK_READ m` at that same address `a`, then the
DISK_READ loads into register `m` exactly the byte register `n` held at
the DISK_WRITE.  Second part: a step changes the disk at an address only
if it is a DISK_WRITE decoding that very address, so "no intervening
DISK_WRITE to `a`" keeps the byte. -/
theorem disk_write_read_roundtrip :
    (∀ s s' : CPUState,
      s.ram s.pc / 16 = 0xC →
      s'.disk ((s.ram ((s.pc + 2) % 65536) <<< 8) ||| s.ram ((s.pc + 1) % 65536)) =
        (step s).disk
          ((s.ram ((s.pc + 2) % 65536) <<< 8) ||| s.ram ((s.pc + 1) % 65536)) →
      s'.ram s'.pc / 16 = 0xB →
      (s'.ram ((s'.pc + 2) % 65536) <<< 8) ||| s'.ram ((s'.pc + 1) % 65536) =
        (s.ram ((s.pc + 2) % 65536) <<< 8) ||| s.ram ((s.pc + 1) % 65536) →
      (step s').regs (s'.ram s'.pc % 16) = s.regs (s.ram s.pc % 16)) ∧
    (∀ t : CPUState, ∀ x : Nat, (step t).disk x ≠ t.disk x →
      t.ram t.pc / 16 = 0xC ∧
      (t.ram ((t.pc + 2) % 65536) <<< 8) ||| t.ram ((t.pc + 1) % 65536) = x) := by
  constructor
  · intro s s' hw hframe hr haddr
    have e1 : ((s.pc + 1) % 65536 + 1) % 65536 = (s.pc + 2) % 65536 := by omega
    have e2 : ((s'.pc + 1) % 65536 + 1) % 65536 = (s'.pc + 2) % 65536 := by omega
    rw [step_eq, hw, execInstr_diskWrite] at hframe
    dsimp only at hframe
    rw [e1, updFn_self] at hframe
    rw [step_eq, hr, execInstr_diskRead]
    dsimp only
    rw [updFn_self, e2, haddr, hframe]
  · intro t x hne
    have e1 : ((t.pc + 1) % 65536 + 1) % 65536 = (t.pc + 2) % 65536 := by omega
    rw [step_eq] at hne
    obtain ⟨k, hgen⟩ : ∃ k, t.ram t.pc / 16 = k := ⟨_, rfl⟩
    rw [hgen] at hne ⊢
    rcases Nat.lt_or_ge k 16 with hk | hk
    · interval_cases k
      · rw [execInstr_nop] at hne; exact absurd rfl hne
      · rw [execInstr_load] at hne; exact absurd rfl hne
      · rw [execInstr_store] at hne; exact absurd rfl hne
      · rw [execInstr_add] at hne; exact absurd rfl hne
      · rw [execInstr_sub] at hne; exact absurd rfl hne
      · rw [execInstr_jmp] at hne; exact absurd rfl hne
      · rw [execInstr_jz] at hne; split at hne <;> exact absurd rfl hne
      · rw [execInstr_call] at hne; exact absurd rfl hne
      · rw [execInstr_ret] at hne; exact absurd rfl hne
      · rw [execInstr_inp] at hne; exact absurd rfl hne
      · rw [execInstr_outp] at hne; exact absurd rfl hne
      · rw [execInstr_diskRead] at hne; exact absurd rfl hne
      · rw [execInstr_diskWrite] at hne
        dsimp only at hne
        rw [e1] at hne
        by_cases hx :
          x = (t.ram ((t.pc + 2) % 65536) <<< 8) ||| t.ram ((t.pc + 1) % 65536)
        · exact ⟨rfl, hx.symm⟩
        · rw [updFn_other _ _ _ _ hx] at hne; exact absurd rfl hne
      · rw [execInstr_unknown 13 _ _ (by omega) (by omega)] at hne
        exact absurd rfl hne
      · rw [execInstr_unknown 14 _ _ (by omega) (by omega)] at hne
        exact absurd rfl hne
      · rw [execInstr_halt] at hne; exact absurd rfl hne
    · rw [execInstr_unknown _ _ _ (by omega) (by omega)] at hne
      exact absurd rfl hne

/-- Witness for C7: writing 42 to disk address 7 and reading it back in a
later boot on the same disk yields 42; the write indeed changed disk
address 7 and is identified by the frame part. -/
theorem disk_write_read_roundtrip_witness :
    (step cwDiskR).regs (cwDiskR.ram cwDiskR.pc % 16) =
      cwDiskW.regs (cwDiskW.ram cwDiskW.pc % 16) ∧
    (cwDiskW.ram cwDiskW.pc / 16 = 0xC ∧
      (cwDiskW.ram ((cwDiskW.pc + 2) % 65536) <<< 8) |||
        cwDiskW.ram ((cwDiskW.pc + 1) % 65536) = 7) :=
  ⟨disk_write_read_roundtrip.1 cwDiskW cwDiskR (by decide) (by decide)
      (by decide) (by decide),
   disk_write_read_roundtrip.2 cwDiskW 7 (by decide)⟩

/-- Every byte of the scenario program decodes to opcode 0 (NOP) or 1
(LOAD) — in particular never to HALT or to an unassigned opcode. -/
theorem c8_bytes (a : Nat) :
    listFun [0x10, 0x05, 0x1F, 0x00] a / 16 = 0 ∨
    listFun [0x10, 0x05, 0x1F, 0x00] a / 16 = 1 := by
  match a with
  | 0 => right; decide
  | 1 => left; decide
  | 2 => right; decide
  | 3 => left; decide
  | n + 4 =>
    left
    have hz : listFun [0x10, 0x05, 0x1F, 0x00] (n + 4) = 0 := by
      unfold listFun
      rw [List.getD_eq_getElem?_getD, List.getElem?_eq_none
        (show ([0x10, 0x05, 0x1F, 0x00] : List Nat).length ≤ n + 4 by simp)]
      rfl
    rw [hz]

/-- One step on the scenario memory keeps the memory intact and the
engine running: every instruction it can hit is a NOP or a LOAD. -/
theorem c8_step_inv (s : CPUState)
    (hram : s.ram = listFun [0x10, 0x05, 0x1F, 0x00])
    (hrun : s.running = true) :
    (step s).ram = listFun [0x10, 0x05, 0x1F, 0x00] ∧
    (step s).running = true := by
  rcases c8_bytes s.pc with h | h
  · have h' : s.ram s.pc / 16 = 0 := by rw [hram]; exact h
    rw [step_eq, h', execInstr_nop]
    exact ⟨hram, hrun⟩
  · have h' : s.ram s.pc / 16 = 1 := by rw [hram]; exact h
    rw [step_eq, h', execInstr_load]
    exact ⟨hram, hrun⟩

/-- On the scenario memory, the loop never observes `running = false`. -/
theorem c8_run_inv (n : Nat) (s : CPUState)
    (hram : s.ram = listFun [0x10, 0x05, 0x1F, 0x00])
    (hrun : s.running = true) : (run n s).running = true := by
  induction n generalizing s with
  | zero => exact hrun
  | succ n ih =>
    rw [run, if_pos hrun]
    exact ih (step s) (c8_step_inv s hram hrun).1 (c8_step_inv s hram hrun).2

/-- C8 counterexample: the scenario program `0x10 0x05 0x1F 0x00` never
halts — no amount of fuel makes `execute` return, let alone with `R0 = 5`
and the zero flag clear — because `0x1F` decodes as `LOAD R15` (high
nibble 1), not as any HALT-equivalent, and every other reachable byte is a
NOP or LOAD. -/
theorem c8_scenario_false : ¬ c8Claim := by
  rintro ⟨n, hhalt, -, -⟩
  have hrun : (execute n c8b).running = true :=
    c8_run_inv n { c8b with running := true } rfl rfl
  exact Bool.noConfusion (hrun.symm.trans hhalt)

/-- C8 amended: after the first instruction (`LOAD R0, 5`) the scenario
machine has `R0 = 5` and the zero flag clear; the second instruction
decodes as `LOAD` with the out-of-bounds register index 15 (`0x1F`) and
immediate 0, which sets the zero flag; `R0` stays 5, and the engine never
halts — `execute` does not return for any amount of fuel. -/
theorem c8_scenario_amended :
    (execute 1 c8b).regs 0 = 5 ∧ (execute 1 c8b).zf = false ∧
    stepRegAccesses (execute 1 c8b) = [15] ∧
    (execute 2 c8b).regs 0 = 5 ∧ (execute 2 c8b).zf = true ∧
    ∀ n, (execute n c8b).running = true :=
  ⟨by decide, by decide, by decide, by decide, by decide,
    fun n => c8_run_inv n { c8b with running := true } rfl rfl⟩

/-- One-instruction version of C9: every register-file index the next
instruction uses is in bounds (below the register file's 4 entries) if
and only if the decoded low-nibble operand (for the eight register-using
opcodes) and the fetched ADD/SUB `reg_m` byte are at most 3. -/
theorem step_reg_iff (s : CPUState) :
    (∀ i ∈ stepRegAccesses s, i < 4) ↔ stepOperandsLe3 s := by
  simp only [stepRegAccesses, stepOperandsLe3]
  obtain ⟨k, hk⟩ : ∃ k, s.ram s.pc >>> 4 = k := ⟨_, rfl⟩
  rw [hk]
  rcases Nat.lt_or_ge k 16 with h | h
  · interval_cases k <;> simp [and15_eq_mod] <;> omega
  · rw [if_neg (by omega), if_neg (by omega)]
    simp only [List.not_mem_nil, false_implies, implies_true, true_iff]
    exact ⟨fun h' => absurd h' (by omega), fun h' => absurd h' (by omega)⟩

/-- C9: the engine range-checks no register index: the low-nibble operand
of LOAD, STORE, ADD, SUB, IN, OUT, DISK_READ, DISK_WRITE and the entire
unmasked ADD/SUB second byte index the 4-entry register file directly, so
along any fuelled execution every register-file access is in bounds
(index < 4) if and only if every such decoded operand byte is at most 3. -/
theorem reg_access_in_bounds_iff (n : Nat) (s : CPUState) :
    (∀ i ∈ runRegAccesses n s, i < 4) ↔ runOperandsLe3 n s := by
  induction n generalizing s with
  | zero => simp [runRegAccesses, runOperandsLe3]
  | succ n ih =>
    cases hr : s.running with
    | false => simp [runRegAccesses, runOperandsLe3, hr]
    | true =>
      rw [runRegAccesses, runOperandsLe3, if_pos hr, if_pos hr]
      simp only [List.mem_append]
      constructor
      · intro hall
        exact ⟨(step_reg_iff s).1 fun i hi => hall i (Or.inl hi),
          (ih (step s)).1 fun i hi => hall i (Or.inr hi)⟩
      · rintro ⟨h1, h2⟩ i (hi | hi)
        · exact (step_reg_iff s).2 h1 i hi
        · exact (ih (step s)).2 h2 i hi

/-- A pointwise store update keeps all entries below 256 when the written
value is a byte. -/
theorem updFn_lt (f : Nat → Nat) (a v : Nat) (hf : ∀ x, f x < 256)
    (hv : v < 256) (x : Nat) : updFn f a v x < 256 := by
  unfold updFn
  split
  · exact hv
  · exact hf x

/-- Masking with `& 0xFF` always produces a byte. -/
theorem and255_lt (x : Nat) : x &&& 0xFF < 256 := by
  rw [and255_eq_mod]; omega

/-- Truncating a signed intermediate with `% 256` produces a byte. -/
theorem emod256_toNat_lt (x : Int) : (x % 256).toNat < 256 := by
  have h1 : x % 256 < 256 := Int.emod_lt_of_pos x (by norm_num)
  omega

/-- A 16-bit little-endian address assembled from two bytes is below
65536. -/
theorem lor_shl8_lt (h l : Nat) (hh : h < 256) (hl : l < 256) :
    (h <<< 8) ||| l < 65536 := by
  rw [shl8_lor_eq h l hl]; omega

/-- Well-formedness is preserved by one engine step: the program counter
stays 16-bit, the stack pointer stays 8-bit, and all stores keep holding
bytes. -/
theorem wf_step (s : CPUState) (h : WF s) : WF (step s) := by
  obtain ⟨hpc, hsp, hram, hdisk, hregs⟩ := h
  rw [step_eq]
  obtain ⟨k, hk⟩ : ∃ k, s.ram s.pc / 16 = k := ⟨_, rfl⟩
  rw [hk]
  have hk16 : k < 16 := by have := hram s.pc; omega
  interval_cases k
  · rw [execInstr_nop]
    exact ⟨show (s.pc + 1) % 65536 < 65536 by omega, hsp, hram, hdisk, hregs⟩
  · rw [execInstr_load]
    exact ⟨show ((s.pc + 1) % 65536 + 1) % 65536 < 65536 by omega, hsp,
      hram, hdisk, updFn_lt _ _ _ hregs (hram _)⟩
  · rw [execInstr_store]
    exact ⟨show ((s.pc + 1) % 65536 + 1) % 65536 < 65536 by omega, hsp,
      updFn_lt _ _ _ hram (hregs _), hdisk, hregs⟩
  · rw [execInstr_add]
    exact ⟨show ((s.pc + 1) % 65536 + 1) % 65536 < 65536 by omega, hsp,
      hram, hdisk, updFn_lt _ _ _ hregs (and255_lt _)⟩
  · rw [execInstr_sub]
    exact ⟨show ((s.pc + 1) % 65536 + 1) % 65536 < 65536 by omega, hsp,
      hram, hdisk, updFn_lt _ _ _ hregs (emod256_toNat_lt _)⟩
  · rw [execInstr_jmp]
    exact ⟨lor_shl8_lt _ _ (hram _) (hram _), hsp, hram, hdisk, hregs⟩
  · rw [execInstr_jz]
    split
    · exact ⟨lor_shl8_lt _ _ (hram _) (hram _), hsp, hram, hdisk, hregs⟩
    · exact ⟨show (((s.pc + 1) % 65536 + 1) % 65536 + 1) % 65536 < 65536 by omega,
        hsp, hram, hdisk, hregs⟩
  · rw [execInstr_call]
    exact ⟨lor_shl8_lt _ _ (hram _) (hram _),
      show ((s.sp + 255) % 256 + 255) % 256 < 256 by omega,
      updFn_lt _ _ _ (updFn_lt _ _ _ hram (and255_lt _)) (and255_lt _),
      hdisk, hregs⟩
  · rw [execInstr_ret]
    exact ⟨lor_shl8_lt _ _ (hram _) (hram _),
      show ((s.sp + 1) % 256 + 1) % 256 < 256 by omega, hram, hdisk, hregs⟩
  · rw [execInstr_inp]
    exact ⟨show (s.pc + 1) % 65536 < 65536 by omega, hsp, hram, hdisk,
      updFn_lt _ _ _ hregs (emod256_toNat_lt _)⟩
  · rw [execInstr_outp]
    exact ⟨show (s.pc + 1) % 65536 < 65536 by omega, hsp, hram, hdisk, hregs⟩
  · rw [execInstr_diskRead]
    exact ⟨show (((s.pc + 1) % 65536 + 1) % 65536 + 1) % 65536 < 65536 by omega,
      hsp, hram, hdisk, updFn_lt _ _ _ hregs (hdisk _)⟩
  · rw [execInstr_diskWrite]
    exact ⟨show (((s.pc + 1) % 65536 + 1) % 65536 + 1) % 65536 < 65536 by omega,
      hsp, hram, updFn_lt _ _ _ hdisk (hregs _), hregs⟩
  · rw [execInstr_unknown 13 _ _ (by omega) (by omega)]
    exact ⟨show (s.pc + 1) % 65536 < 65536 by omega, hsp, hram, hdisk, hregs⟩
  · rw [execInstr_unknown 14 _ _ (by omega) (by omega)]
    exact ⟨show (s.pc + 1) % 65536 < 65536 by omega, hsp, hram, hdisk, hregs⟩
  · rw [execInstr_halt]
    exact ⟨show (s.pc + 1) % 65536 < 65536 by omega, hsp, hram, hdisk, hregs⟩

/-- Every RAM address one step passes to `RAM::read` / `RAM::write` is
below the 20 MiB capacity: fetches use the 16-bit `pc`, STORE targets and
stack accesses are 8-bit. -/
theorem stepRamAddrs_lt (s : CPUState) (h : WF s) :
    ∀ a ∈ stepRamAddrs s, a < RAM_SIZE := by
  obtain ⟨hpc, hsp, hram, hdisk, hregs⟩ := h
  have hRS : RAM_SIZE = 20971520 := rfl
  intro a ha
  simp only [stepRamAddrs] at ha
  obtain ⟨k, hk⟩ : ∃ k, s.ram s.pc >>> 4 = k := ⟨_, rfl⟩
  rw [hk] at ha
  have hk16 : k < 16 := by
    rw [shr4_eq_div] at hk
    have := hram s.pc
    omega
  rcases List.mem_cons.1 ha with ha | ha
  · rw [hRS]; omega
  · interval_cases k <;>
      (simp at ha
       try (rw [hRS]; have h1 := hram ((s.pc + 1) % 65536); omega))

/-- Every disk address one step passes to `Disk::read` / `Disk::write` is
a 16-bit value, hence below the 100 MiB disk capacity. -/
theorem stepDiskAddrs_lt (s : CPUState) (h : WF s) :
    ∀ a ∈ stepDiskAddrs s, a < 65536 ∧ a < DISK_SIZE := by
  obtain ⟨hpc, hsp, hram, hdisk, hregs⟩ := h
  have hDS : DISK_SIZE = 104857600 := rfl
  intro a ha
  simp only [stepDiskAddrs] at ha
  split at ha
  · simp only [List.mem_singleton] at ha
    have hb := lor_shl8_lt (s.ram ((s.pc + 2) % 65536)) (s.ram ((s.pc + 1) % 65536))
      (hram _) (hram _)
    rw [hDS]
    omega
  · exact absurd ha (by simp)

/-- C10: from any well-formed state, every address a fuelled run passes to
the RAM store is below the 20 MiB `RAM_SIZE` (fetch addresses are 16-bit,
STORE targets and stack addresses 8-bit), every address it passes to the
disk store is a 16-bit value below the 100 MiB `DISK_SIZE`, and the state
stays well-formed — so the `assert` bounds checks in `RAM::read`,
`RAM::write`, `Disk::read` and `Disk::write` never fire. -/
theorem engine_addresses_in_bounds (n : Nat) (s : CPUState) (h : WF s) :
    (∀ a ∈ runRamAddrs n s, a < RAM_SIZE) ∧
    (∀ a ∈ runDiskAddrs n s, a < 65536 ∧ a < DISK_SIZE) ∧
    WF (run n s) := by
  induction n generalizing s with
  | zero => exact ⟨by simp [runRamAddrs], by simp [runDiskAddrs], h⟩
  | succ n ih =>
    cases hr : s.running with
    | false =>
      refine ⟨by simp [runRamAddrs, hr], by simp [runDiskAddrs, hr], ?_⟩
      rw [run, if_neg (by simp [hr])]
      exact h
    | true =>
      obtain ⟨ih1, ih2, ih3⟩ := ih (step s) (wf_step s h)
      refine ⟨?_, ?_, ?_⟩
      · rw [runRamAddrs, if_pos hr]
        intro a ha
        rcases List.mem_append.1 ha with ha | ha
        · exact stepRamAddrs_lt s h a ha
        · exact ih1 a ha
      · rw [runDiskAddrs, if_pos hr]
        intro a ha
        rcases List.mem_append.1 ha with ha | ha
        · exact stepDiskAddrs_lt s h a ha
        · exact ih2 a ha
      · rw [run, if_pos hr]
        exact ih3

/-- Witness for C10: a well-formed machine running `LOAD R0, 7; HALT`. -/
theorem engine_addresses_in_bounds_witness :
    (∀ a ∈ runRamAddrs 3 cwSafe, a < RAM_SIZE) ∧
    (∀ a ∈ runDiskAddrs 3 cwSafe, a < 65536 ∧ a < DISK_SIZE) ∧
    WF (run 3 cwSafe) :=
  engine_addresses_in_bounds 3 cwSafe
    ⟨by decide, by decide, fun a => listFun_lt [0x10, 0x07, 0xF0] (by decide) a,
     fun a => listFun_lt [] (by decide) a, fun i => listFun_lt [] (by decide) i⟩

end VM
